import Mathlib

/-!
A shallow embedding of the Bayesian-optimization engine described by the
repository specification (ParameterSpace, lazy-probe queue, acquisition
optimizer with clipping, the maximize control loop, log loading), together
with theorems settling the behavioural claims about it.  The library code
itself is not shipped with the repository (only the example notebook is),
so all definitions are modelled from the specification text; numeric
values are represented by rationals.
-/

namespace BayesOpt

/-- Modelled from the spec: the "small fixed numeric tolerance" used to
decide whether two points are duplicates (§3, Point). -/
def tol : ℚ := 1 / 1000000000

/-- Modelled from the spec: a Point is an ordered numeric vector, one
coordinate per parameter, in the canonical key order (§3). -/
abbrev Point := List ℚ

/-- Modelled from the spec: two points are duplicate when they have the
same dimensionality and every pair of coordinates agrees within the fixed
tolerance (§3, Point). -/
def isDuplicate (p q : Point) : Bool :=
  p.length == q.length && (p.zip q).all fun ab => decide (|ab.1 - ab.2| ≤ tol)

/-- Modelled from the spec: an Observation is a (Point, target value)
pair, immutable once registered (§3). -/
structure Observation where
  point : Point
  target : ℚ
deriving DecidableEq, Repr

/-- Modelled from the spec: ParameterSpace owns the canonical key order,
the per-key bounds (kept aligned with the keys), and the ordered sequence
of registered Observations (§3, §4.1). -/
structure ParameterSpace where
  keys : List String
  bounds : List (ℚ × ℚ)
  observations : List Observation

/-- Modelled from the spec: construction fixes the canonical coordinate
order as the lexicographic order of the initial bounds keys, and starts
with no observations (§3, §4.1 invariant). -/
def ParameterSpace.create (pbounds : List (String × (ℚ × ℚ))) : ParameterSpace :=
  let ks := (pbounds.map Prod.fst).insertionSort (· ≤ ·)
  { keys := ks
    bounds := ks.map fun k => ((pbounds.lookup k).getD (0, 1))
    observations := [] }

/-- Modelled from the spec: `register(point, value)` overwrites the value
of a duplicate stored point (within tolerance) and otherwise appends a new
Observation (§4.1). -/
def ParameterSpace.register (s : ParameterSpace) (p : Point) (v : ℚ) : ParameterSpace :=
  if s.observations.any fun o => isDuplicate o.point p then
    { s with observations := s.observations.map fun o =>
        if isDuplicate o.point p then { o with target := v } else o }
  else
    { s with observations := s.observations ++ [⟨p, v⟩] }

/-- Modelled from the spec: one fold step of the best-observation search;
a later observation replaces the current best only when its target is
strictly greater, so ties keep the earlier one (§4.1, `max()`). -/
def obsBetter (best : Option Observation) (o : Observation) : Option Observation :=
  match best with
  | none => some o
  | some b => if b.target < o.target then some o else some b

/-- Modelled from the spec: `max()` returns the Observation with the
greatest target value, ties broken by earliest registration, or "empty"
when no observations exist (§4.1). -/
def ParameterSpace.best (s : ParameterSpace) : Option Observation :=
  s.observations.foldl obsBetter none

/-- Modelled from the spec: `set_bounds(partial_bounds)` merges new
intervals for existing keys, leaving absent keys (and the canonical key
order) unaffected (§4.1). -/
def ParameterSpace.setBounds (s : ParameterSpace) (nb : List (String × (ℚ × ℚ))) :
    ParameterSpace :=
  { s with bounds := (s.keys.zip s.bounds).map fun kb =>
      match nb.lookup kb.1 with
      | some b => b
      | none => kb.2 }

/-- Modelled from the spec: membership of a point in the admissible
region - same dimensionality as the bounds and every coordinate inside
its closed interval (§3, Bounds/Point). -/
def inBounds (bounds : List (ℚ × ℚ)) (p : Point) : Prop :=
  p.length = bounds.length ∧ ∀ xb ∈ p.zip bounds, xb.2.1 ≤ xb.1 ∧ xb.1 ≤ xb.2.2

instance (bounds : List (ℚ × ℚ)) (p : Point) : Decidable (inBounds bounds p) := by
  unfold inBounds; infer_instance

/-- Modelled from the spec: the explicitly threaded deterministic
pseudo-random generator (§5, §9); a linear congruential generator stands
in for the seeded generator, owned by the controller and passed
explicitly - never an implicit global source. -/
structure Rng where
  state : Nat
deriving DecidableEq, Repr

/-- Modelled from the spec: advancing the generator yields a value in
[0, 2^32) and the successor generator state. -/
def Rng.next (g : Rng) : Nat × Rng :=
  let s := (6364136223846793005 * g.state + 1442695040888963407) % 18446744073709551616
  (s % 4294967296, ⟨s⟩)

/-- Modelled from the spec: one coordinate drawn uniformly from its
closed interval using the supplied generator (§4.1, `random_sample`). -/
def sampleCoord (b : ℚ × ℚ) (g : Rng) : ℚ × Rng :=
  let rg := g.next
  (b.1 + (b.2 - b.1) * ((rg.1 : ℚ) / 4294967296), rg.2)

/-- Modelled from the spec: a whole Point drawn from the current bounds,
threading the generator through the coordinates (§4.1, `random_sample`). -/
def randomSamplePoint (bounds : List (ℚ × ℚ)) (g : Rng) : Point × Rng :=
  match bounds with
  | [] => ([], g)
  | b :: bs =>
    let xg := sampleCoord b g
    let rest := randomSamplePoint bs xg.2
    (xg.1 :: rest.1, rest.2)

/-- Modelled from the spec: `random_sample(rng)` draws one Point uniformly
at random from the current Bounds using the supplied deterministic
generator (§4.1). -/
def ParameterSpace.randomSample (s : ParameterSpace) (g : Rng) : Point × Rng :=
  randomSamplePoint s.bounds g

/-- Modelled from the spec: the sequence produced by calling
`random_sample` n times, threading the generator from call to call. -/
def randomSampleSeq (s : ParameterSpace) (g : Rng) : Nat → List Point
  | 0 => []
  | n + 1 =>
    let pg := s.randomSample g
    pg.1 :: randomSampleSeq s pg.2 n

/-- Modelled from the spec: clipping a candidate point back into the
admissible region, coordinate by coordinate (§4.4, "clip if a local step
overshoots"). -/
def clip (bounds : List (ℚ × ℚ)) (p : Point) : Point :=
  (p.zip bounds).map fun xb => max xb.2.1 (min xb.2.2 xb.1)

/-- Modelled from the spec: the best-scoring candidate among a default
and a list of alternatives, ties broken by first-found (§4.4). -/
def argmaxBy (score : Point → ℚ) (p : Point) (ps : List Point) : Point :=
  ps.foldl (fun best q => if score best < score q then q else best) p

/-- Modelled from the spec: the AcquisitionOptimizer returns the single
best point among the local-search results and a random fallback
candidate, every one of them clipped into the current Bounds, so the
suggestion step never leaves without an in-bounds result (§4.4). -/
def suggest (bounds : List (ℚ × ℚ)) (score : Point → ℚ)
    (fallback : Point) (starts : List Point) : Point :=
  argmaxBy score (clip bounds fallback) (starts.map (clip bounds))

/-- Modelled from the spec: the OptimizationController state - the
parameter space, the FIFO LazyProbeQueue, the explicitly threaded
generator and the external objective function (§2, §3, §4.5). -/
structure Optimizer where
  space : ParameterSpace
  queue : List Point
  rng : Rng
  f : Point → ℚ

/-- Modelled from the spec: immediate probing evaluates the external
objective at the point and registers the resulting Observation (§4.1
`probe`, §4.5). -/
def Optimizer.probeNow (o : Optimizer) (p : Point) : Optimizer :=
  { o with space := o.space.register p (o.f p) }

/-- Modelled from the spec: lazy probing appends the point to the
LazyProbeQueue without evaluating it (§4.5, `probe(params, lazy)`). -/
def Optimizer.probeLazy (o : Optimizer) (p : Point) : Optimizer :=
  { o with queue := o.queue ++ [p] }

/-- Modelled from the spec: probe parameters are given either as a
name-to-value mapping or as a vector ordered by the canonical key order
(§4.1, `probe(params)`). -/
inductive ParamsArg
  | mapping (m : List (String × ℚ))
  | vector (v : List ℚ)

/-- Modelled from the spec: conversion of a probe argument to a canonical
Point; a mapping is read out in the canonical key order, a vector is
taken as already being in that order (§4.1, `probe(params)`). -/
def ParameterSpace.asPoint (s : ParameterSpace) : ParamsArg → Point
  | .mapping m => s.keys.map fun k => (m.lookup k).getD 0
  | .vector v => v

/-- Modelled from the spec: the controller's `probe(params, lazy)` (§4.5). -/
def Optimizer.probe (o : Optimizer) (params : ParamsArg) (lazy : Bool) : Optimizer :=
  let p := o.space.asPoint params
  if lazy then o.probeLazy p else o.probeNow p

/-- The kind of an evaluation performed during `maximize`: a random
initialization sample, a drained lazy-queue point, or an
acquisition-suggested point. -/
inductive EvalKind
  | init
  | lazy
  | suggestion
deriving DecidableEq, Repr

/-- Modelled from the spec: the Initializing phase of `maximize` - each
of the `init_points` random samples is probed and registered in turn
(§4.5).  Returns the updated optimizer and the trace of evaluations. -/
def runInit : Optimizer → Nat → Optimizer × List (EvalKind × Point)
  | o, 0 => (o, [])
  | o, n + 1 =>
    let pg := o.space.randomSample o.rng
    let o1 := Optimizer.probeNow { o with rng := pg.2 } pg.1
    let rest := runInit o1 n
    (rest.1, (EvalKind.init, pg.1) :: rest.2)

/-- Modelled from the spec: draining the LazyProbeQueue - each queued
point is probed and registered in FIFO order (§4.5, state LazyDraining). -/
def drainQueue (o : Optimizer) : Optimizer × List (EvalKind × Point) :=
  (o.queue.foldl (fun acc p => acc.probeNow p) { o with queue := [] },
   o.queue.map fun p => (EvalKind.lazy, p))

/-- Modelled from the spec: the `n_iter` main-loop iterations of
`maximize`; each iteration drains the lazy queue first, then asks the
AcquisitionOptimizer for the next point (a random candidate clipped into
bounds stands in for the surrogate-guided search) and probes it (§4.5). -/
def runIters : Optimizer → Nat → Optimizer × List (EvalKind × Point)
  | o, 0 => (o, [])
  | o, n + 1 =>
    let od := drainQueue o
    let cg := od.1.space.randomSample od.1.rng
    let p := suggest od.1.space.bounds (fun _ => 0) cg.1 []
    let o2 := Optimizer.probeNow { od.1 with rng := cg.2 } p
    let rest := runIters o2 n
    (rest.1, od.2 ++ (EvalKind.suggestion, p) :: rest.2)

/-- Modelled from the spec: `maximize(init_points, n_iter)` runs the
`init_points` random samples first, then the `n_iter` main-loop
iterations (§4.5).  Returns the final optimizer and the full ordered
trace of evaluations performed during the call. -/
def Optimizer.maximize (o : Optimizer) (init_points n_iter : Nat) :
    Optimizer × List (EvalKind × Point) :=
  let oi := runInit o init_points
  let om := runIters oi.1 n_iter
  (om.1, oi.2 ++ om.2)

/-- Modelled from the spec: one record of the persisted progress file - a
target value and the parameter values (§6, progress persistence format;
the timestamp is irrelevant to registration). -/
structure LogRecord where
  target : ℚ
  params : Point
deriving DecidableEq, Repr

/-- Modelled from the spec: `load_logs` reconstructs Observations from
the records of a persisted file and registers them into a ParameterSpace,
applying the duplicate rule of §3 (§6). -/
def loadLogs (s : ParameterSpace) (logs : List LogRecord) : ParameterSpace :=
  logs.foldl (fun sp r => sp.register r.params r.target) s

/-! ### Helper lemmas -/

lemma tol_nonneg : (0 : ℚ) ≤ tol := by norm_num [tol]

lemma isDuplicate_self (p : Point) : isDuplicate p p = true := by
  induction p with
  | nil => rfl
  | cons x xs ih =>
    simp only [isDuplicate, List.length_cons, List.zip_cons_cons, List.all_cons,
      beq_self_eq_true, Bool.true_and, Bool.and_eq_true, decide_eq_true_eq] at *
    exact ⟨by simpa using tol_nonneg, ih⟩

lemma register_keys (s : ParameterSpace) (p : Point) (v : ℚ) :
    (s.register p v).keys = s.keys := by
  unfold ParameterSpace.register
  split <;> rfl

lemma register_append (s : ParameterSpace) (p : Point) (v : ℚ)
    (h : ∀ o ∈ s.observations, isDuplicate o.point p = false) :
    (s.register p v).observations = s.observations ++ [⟨p, v⟩] := by
  unfold ParameterSpace.register
  have hany : (s.observations.any fun o => isDuplicate o.point p) = false := by
    simp only [List.any_eq_false]
    intro o ho
    simp [h o ho]
  simp [hany]

lemma register_overwrite (s : ParameterSpace) (p : Point) (v : ℚ)
    (h : (s.observations.any fun o => isDuplicate o.point p) = true) :
    (s.register p v).observations = s.observations.map fun o =>
      if isDuplicate o.point p then { o with target := v } else o := by
  simp [ParameterSpace.register, h]

lemma foldl_obsBetter_some (l : List Observation) (b : Observation) :
    ∃ o, l.foldl obsBetter (some b) = some o ∧
      ((o = b ∧ ∀ x ∈ l, x.target ≤ b.target) ∨
       ∃ l1 l2, l = l1 ++ o :: l2 ∧ b.target < o.target ∧
         (∀ x ∈ l1, x.target < o.target) ∧ ∀ x ∈ l, x.target ≤ o.target) := by
  induction l generalizing b with
  | nil => exact ⟨b, rfl, Or.inl ⟨rfl, by simp⟩⟩
  | cons y rest ih =>
    simp only [List.foldl_cons]
    by_cases hy : b.target < y.target
    · have hstep : obsBetter (some b) y = some y := by simp [obsBetter, hy]
      rw [hstep]
      obtain ⟨o, ho, hcase⟩ := ih y
      refine ⟨o, ho, Or.inr ?_⟩
      rcases hcase with ⟨rfl, hall⟩ | ⟨l1, l2, hsplit, hlt, hbefore, hall⟩
      · refine ⟨[], rest, rfl, hy, by simp, ?_⟩
        intro x hx
        rcases List.mem_cons.1 hx with rfl | hx
        · exact le_refl _
        · exact hall x hx
      · refine ⟨y :: l1, l2, by simp [hsplit], hy.trans hlt, ?_, ?_⟩
        · intro x hx
          rcases List.mem_cons.1 hx with rfl | hx
          · exact hlt
          · exact hbefore x hx
        · intro x hx
          rcases List.mem_cons.1 hx with rfl | hx
          · exact le_of_lt hlt
          · exact hall x hx
    · have hstep : obsBetter (some b) y = some b := by simp [obsBetter, hy]
      rw [hstep]
      obtain ⟨o, ho, hcase⟩ := ih b
      refine ⟨o, ho, ?_⟩
      rcases hcase with ⟨rfl, hall⟩ | ⟨l1, l2, hsplit, hlt, hbefore, hall⟩
      · refine Or.inl ⟨rfl, ?_⟩
        intro x hx
        rcases List.mem_cons.1 hx with rfl | hx
        · exact le_of_not_lt hy
        · exact hall x hx
      · refine Or.inr ⟨y :: l1, l2, by simp [hsplit], hlt, ?_, ?_⟩
        · intro x hx
          rcases List.mem_cons.1 hx with rfl | hx
          · exact lt_of_le_of_lt (le_of_not_lt hy) hlt
          · exact hbefore x hx
        · intro x hx
          rcases List.mem_cons.1 hx with rfl | hx
          · exact le_of_lt (lt_of_le_of_lt (le_of_not_lt hy) hlt)
          · exact hall x hx

/-! ### Claim theorems -/

/-- C10: a freshly constructed optimizer has an empty observation
history - the length of its parameter space is 0 and no best observation
exists until something is registered. -/
theorem claim_C10_fresh_optimizer_empty
    (pb : List (String × (ℚ × ℚ))) (seed : Nat) (f : Point → ℚ) :
    (Optimizer.mk (ParameterSpace.create pb) [] ⟨seed⟩ f).space.observations.length = 0 ∧
    (Optimizer.mk (ParameterSpace.create pb) [] ⟨seed⟩ f).space.best = none :=
  ⟨rfl, rfl⟩

/-- C5: the canonical coordinate order is the lexicographic order of the
parameter names, fixed at construction from the initial bounds keys,
unchanged by set_bounds and register for the object's lifetime, and a
vector probe argument is interpreted exactly in that canonical order. -/
theorem claim_C5_canonical_order (pb : List (String × (ℚ × ℚ))) :
    (ParameterSpace.create pb).keys.Sorted (· ≤ ·) ∧
    (ParameterSpace.create pb).keys.Perm (pb.map Prod.fst) ∧
    (∀ s nb, (ParameterSpace.setBounds s nb).keys = s.keys) ∧
    (∀ s p v, (ParameterSpace.register s p v).keys = s.keys) ∧
    (∀ s m, ParameterSpace.asPoint s (ParamsArg.mapping m) =
      ParameterSpace.asPoint s (ParamsArg.vector (s.keys.map fun k => (m.lookup k).getD 0))) :=
  ⟨List.sorted_insertionSort _ _, List.perm_insertionSort _ _, fun _ _ => rfl,
    fun s p v => register_keys s p v, fun _ _ => rfl⟩

/-- C6: registering a point and then a duplicate of it within tolerance
leaves exactly one stored Observation for that point, holding the second
value, and the observation count does not grow on the second
registration. -/
theorem claim_C6_duplicate_overwrite
    (s : ParameterSpace) (p p2 : Point) (v1 v2 : ℚ)
    (hs : ∀ o ∈ s.observations,
      isDuplicate o.point p = false ∧ isDuplicate o.point p2 = false)
    (hdup : isDuplicate p p2 = true) :
    ((s.register p v1).register p2 v2).observations = s.observations ++ [⟨p, v2⟩] ∧
    ((s.register p v1).register p2 v2).observations.filter
      (fun o => isDuplicate o.point p) = [⟨p, v2⟩] ∧
    ((s.register p v1).register p2 v2).observations.length =
      (s.register p v1).observations.length := by
  have h1 : (s.register p v1).observations = s.observations ++ [⟨p, v1⟩] :=
    register_append s p v1 fun o ho => (hs o ho).1
  have hany : ((s.register p v1).observations.any fun o => isDuplicate o.point p2) = true := by
    rw [h1]
    simp [hdup]
  have h2 := register_overwrite (s.register p v1) p2 v2 hany
  rw [h1] at h2
  have hmap : (s.observations.map fun o =>
      if isDuplicate o.point p2 then { o with target := v2 } else o) = s.observations := by
    conv_rhs => rw [show s.observations = s.observations.map id from (List.map_id _).symm]
    refine List.map_congr_left fun o ho => ?_
    simp [(hs o ho).2]
  have hobs : ((s.register p v1).register p2 v2).observations
      = s.observations ++ [⟨p, v2⟩] := by
    rw [h2, List.map_append, hmap]
    simp [hdup]
  refine ⟨hobs, ?_, ?_⟩
  · rw [hobs, List.filter_append]
    have hnil : s.observations.filter (fun o => isDuplicate o.point p) = [] := by
      rw [List.filter_eq_nil_iff]
      intro o ho
      simp [(hs o ho).1]
    rw [hnil]
    simp [isDuplicate_self]
  · rw [hobs, h1]
    simp

/-- Witness for C6 at a concrete input: a fresh one-parameter space, the
point [0] and its within-tolerance duplicate [1/2000000000]. -/
theorem claim_C6_duplicate_overwrite_witness :
    (∀ o ∈ (ParameterSpace.create [("x", (0, 1))]).observations,
      isDuplicate o.point [0] = false ∧ isDuplicate o.point [1 / 2000000000] = false) ∧
    isDuplicate [0] [1 / 2000000000] = true ∧
    (((ParameterSpace.create [("x", (0, 1))]).register [0] 3).register
        [1 / 2000000000] 4).observations
      = (ParameterSpace.create [("x", (0, 1))]).observations ++ [⟨[0], 4⟩] :=
  ⟨fun o ho => absurd ho (List.not_mem_nil o),
    by norm_num [isDuplicate, tol, abs_le],
    (claim_C6_duplicate_overwrite (ParameterSpace.create [("x", (0, 1))])
      [0] [1 / 2000000000] 3 4 (fun o ho => absurd ho (List.not_mem_nil o))
      (by norm_num [isDuplicate, tol, abs_le])).1⟩

lemma best_spec (l : List Observation) :
    (l.foldl obsBetter none = none ↔ l = []) ∧
    ∀ o, l.foldl obsBetter none = some o →
      ∃ l1 l2, l = l1 ++ o :: l2 ∧ (∀ x ∈ l1, x.target < o.target) ∧
        ∀ x ∈ l, x.target ≤ o.target := by
  cases l with
  | nil => exact ⟨by simp, fun o ho => absurd ho (by simp)⟩
  | cons y rest =>
    obtain ⟨o, ho, hcase⟩ := foldl_obsBetter_some rest y
    have hfold : (y :: rest).foldl obsBetter none = some o := ho
    refine ⟨by simp [hfold], fun o2 ho2 => ?_⟩
    have heq : o2 = o := Option.some.inj ((hfold.symm.trans ho2).symm)
    subst heq
    rcases hcase with ⟨rfl, hall⟩ | ⟨l1, l2, hsplit, hlt, hbefore, hall⟩
    · refine ⟨[], rest, by simp, by simp, ?_⟩
      intro x hx
      rcases List.mem_cons.1 hx with rfl | hx
      · exact le_refl _
      · exact hall x hx
    · refine ⟨y :: l1, l2, by simp [hsplit], ?_, ?_⟩
      · intro x hx
        rcases List.mem_cons.1 hx with rfl | hx
        · exact hlt
        · exact hbefore x hx
      · intro x hx
        rcases List.mem_cons.1 hx with rfl | hx
        · exact le_of_lt hlt
        · exact hall x hx

/-- C4: the best-observation accessor returns the registered Observation
whose target is greatest among the whole observation history, ties broken
in favour of the earliest-registered observation, and returns the empty
result exactly when no observations exist. -/
theorem claim_C4_best_observation (s : ParameterSpace) :
    (s.best = none ↔ s.observations = []) ∧
    ∀ o, s.best = some o →
      ∃ l1 l2, s.observations = l1 ++ o :: l2 ∧
        (∀ x ∈ l1, x.target < o.target) ∧
        ∀ x ∈ s.observations, x.target ≤ o.target :=
  best_spec s.observations

lemma inBounds_clip (bounds : List (ℚ × ℚ)) (p : Point)
    (hv : ∀ b ∈ bounds, b.1 ≤ b.2) (hl : p.length = bounds.length) :
    inBounds bounds (clip bounds p) := by
  induction bounds generalizing p with
  | nil =>
    cases p with
    | nil => exact ⟨rfl, by simp⟩
    | cons x xs => exact absurd hl (by simp)
  | cons b bs ih =>
    cases p with
    | nil => exact absurd hl (by simp)
    | cons x xs =>
      have hb := hv b (List.mem_cons_self b bs)
      have hrest := ih xs (fun c hc => hv c (List.mem_cons_of_mem b hc)) (by simpa using hl)
      have hcons : clip (b :: bs) (x :: xs) = max b.1 (min b.2 x) :: clip bs xs := rfl
      rw [hcons]
      refine ⟨by simpa using hrest.1, ?_⟩
      intro xb hxb
      rw [List.zip_cons_cons] at hxb
      rcases List.mem_cons.1 hxb with rfl | hxb
      · exact ⟨le_max_left _ _, max_le hb (min_le_left _ _)⟩
      · exact hrest.2 xb hxb

lemma argmaxBy_mem (score : Point → ℚ) (p : Point) (ps : List Point) :
    argmaxBy score p ps ∈ p :: ps := by
  induction ps generalizing p with
  | nil => exact List.mem_singleton.2 rfl
  | cons q rest ih =>
    have hstep : argmaxBy score p (q :: rest)
        = argmaxBy score (if score p < score q then q else p) rest := rfl
    rw [hstep]
    have h := ih (if score p < score q then q else p)
    rcases List.mem_cons.1 h with heq | hmem
    · rw [heq]
      split
      · exact List.mem_cons_of_mem _ (List.mem_cons_self _ _)
      · exact List.mem_cons_self _ _
    · exact List.mem_cons_of_mem _ (List.mem_cons_of_mem _ hmem)

/-- C3: every point the acquisition-optimization step returns lies within
the current Bounds of every parameter, and a local-search result that
overshoots a bound is clipped back into the admissible region. -/
theorem claim_C3_suggestion_in_bounds
    (bounds : List (ℚ × ℚ)) (score : Point → ℚ) (fallback : Point) (starts : List Point)
    (hv : ∀ b ∈ bounds, b.1 ≤ b.2)
    (hf : fallback.length = bounds.length)
    (hs : ∀ c ∈ starts, c.length = bounds.length) :
    inBounds bounds (suggest bounds score fallback starts) ∧
    ∀ p, p.length = bounds.length → inBounds bounds (clip bounds p) := by
  refine ⟨?_, fun p hp => inBounds_clip bounds p hv hp⟩
  have hmem := argmaxBy_mem score (clip bounds fallback) (starts.map (clip bounds))
  show inBounds bounds (argmaxBy score (clip bounds fallback) (starts.map (clip bounds)))
  rcases List.mem_cons.1 hmem with heq | hmem
  · rw [heq]
    exact inBounds_clip bounds fallback hv hf
  · obtain ⟨c, hc, hceq⟩ := List.mem_map.1 hmem
    rw [← hceq]
    exact inBounds_clip bounds c hv (hs c hc)

/-- Witness for C3 at a concrete input: one parameter bounded by [0, 1],
a fallback candidate 5 and a local-search result -3, both out of range;
the suggestion still lands inside the bounds. -/
theorem claim_C3_suggestion_in_bounds_witness :
    (∀ b ∈ [((0 : ℚ), (1 : ℚ))], b.1 ≤ b.2) ∧
    inBounds [((0 : ℚ), (1 : ℚ))]
      (suggest [((0 : ℚ), (1 : ℚ))] (fun _ => 0) [5] [[-3]]) :=
  ⟨by norm_num,
    (claim_C3_suggestion_in_bounds [((0 : ℚ), (1 : ℚ))] (fun _ => 0) [5] [[-3]]
      (by norm_num) rfl (by simp)).1⟩

lemma randomSampleSeq_bounds_only (s1 s2 : ParameterSpace) (hb : s1.bounds = s2.bounds)
    (g : Rng) (n : Nat) : randomSampleSeq s1 g n = randomSampleSeq s2 g n := by
  induction n generalizing g with
  | zero => rfl
  | succ n ih =>
    simp only [randomSampleSeq, ParameterSpace.randomSample, hb]
    rw [ih]

lemma uniform_in_interval (lo hi : ℚ) (r : Nat) (hb : lo ≤ hi) (hr : r < 4294967296) :
    lo ≤ lo + (hi - lo) * ((r : ℚ) / 4294967296) ∧
    lo + (hi - lo) * ((r : ℚ) / 4294967296) ≤ hi := by
  have h0 : (0 : ℚ) ≤ (r : ℚ) / 4294967296 := by positivity
  have h1 : (r : ℚ) / 4294967296 ≤ 1 := by
    rw [div_le_one (by norm_num)]
    exact_mod_cast le_of_lt hr
  constructor
  · nlinarith [mul_nonneg (sub_nonneg.2 hb) h0]
  · nlinarith [mul_le_mul_of_nonneg_left h1 (sub_nonneg.2 hb)]

lemma sampleCoord_mem (b : ℚ × ℚ) (g : Rng) (hb : b.1 ≤ b.2) :
    b.1 ≤ (sampleCoord b g).1 ∧ (sampleCoord b g).1 ≤ b.2 :=
  uniform_in_interval b.1 b.2 g.next.1 hb (Nat.mod_lt _ (by norm_num))

lemma randomSamplePoint_inBounds (bounds : List (ℚ × ℚ)) (g : Rng)
    (hv : ∀ b ∈ bounds, b.1 ≤ b.2) :
    inBounds bounds (randomSamplePoint bounds g).1 := by
  induction bounds generalizing g with
  | nil => exact ⟨rfl, by simp⟩
  | cons b bs ih =>
    have hb := hv b (List.mem_cons_self b bs)
    have hc := sampleCoord_mem b g hb
    have hrest := ih (sampleCoord b g).2 fun c hcm => hv c (List.mem_cons_of_mem b hcm)
    have hcons : (randomSamplePoint (b :: bs) g).1
        = (sampleCoord b g).1 :: (randomSamplePoint bs (sampleCoord b g).2).1 := rfl
    rw [hcons]
    refine ⟨by simpa using hrest.1, ?_⟩
    intro xb hxb
    rw [List.zip_cons_cons] at hxb
    rcases List.mem_cons.1 hxb with rfl | hxb
    · exact hc
    · exact hrest.2 xb hxb

/-- C7: the sequence of N random samples is a function of the seed and
the bounds alone - two spaces with the same bounds and the same seed
yield identical sequences, with no dependence on any other state - and
every sampled point respects the bounds. -/
theorem claim_C7_random_sample_deterministic
    (s1 s2 : ParameterSpace) (seed : Nat) (n : Nat)
    (hb : s1.bounds = s2.bounds)
    (hv : ∀ b ∈ s1.bounds, b.1 ≤ b.2) :
    randomSampleSeq s1 ⟨seed⟩ n = randomSampleSeq s2 ⟨seed⟩ n ∧
    ∀ p ∈ randomSampleSeq s1 ⟨seed⟩ n, inBounds s1.bounds p := by
  refine ⟨randomSampleSeq_bounds_only s1 s2 hb ⟨seed⟩ n, ?_⟩
  generalize (⟨seed⟩ : Rng) = g
  induction n generalizing g with
  | zero => simp [randomSampleSeq]
  | succ n ih =>
    intro p hp
    have hcons : randomSampleSeq s1 g (n + 1)
        = (s1.randomSample g).1 :: randomSampleSeq s1 (s1.randomSample g).2 n := rfl
    rw [hcons] at hp
    rcases List.mem_cons.1 hp with rfl | hp
    · exact randomSamplePoint_inBounds s1.bounds g hv
    · exact ih (s1.randomSample g).2 p hp

/-- Witness for C7 at a concrete input: two spaces sharing the bounds
[(0, 1)] but holding different observation histories produce the same
two-sample sequence from seed 1. -/
theorem claim_C7_random_sample_deterministic_witness :
    (ParameterSpace.mk ["x"] [(0, 1)] []).bounds
      = (ParameterSpace.mk ["x"] [(0, 1)] [⟨[0], 5⟩]).bounds ∧
    (∀ b ∈ (ParameterSpace.mk ["x"] [(0, 1)] [] : ParameterSpace).bounds, b.1 ≤ b.2) ∧
    randomSampleSeq (ParameterSpace.mk ["x"] [(0, 1)] []) ⟨1⟩ 2
      = randomSampleSeq (ParameterSpace.mk ["x"] [(0, 1)] [⟨[0], 5⟩]) ⟨1⟩ 2 :=
  ⟨rfl, by norm_num,
    (claim_C7_random_sample_deterministic (ParameterSpace.mk ["x"] [(0, 1)] [])
      (ParameterSpace.mk ["x"] [(0, 1)] [⟨[0], 5⟩]) 1 2 rfl (by norm_num)).1⟩

lemma isDuplicate_single (a b : ℚ) : isDuplicate [a] [b] = decide (|a - b| ≤ tol) := by
  simp [isDuplicate]

lemma loadLogs_fresh (logs : List LogRecord) (s : ParameterSpace)
    (hfresh : ∀ o ∈ s.observations, ∀ r ∈ logs, isDuplicate o.point r.params = false)
    (hd : logs.Pairwise fun a b => isDuplicate a.params b.params = false) :
    (loadLogs s logs).observations
      = s.observations ++ logs.map fun r => ⟨r.params, r.target⟩ := by
  induction logs generalizing s with
  | nil => simp [loadLogs]
  | cons r rest ih =>
    have hreg : (s.register r.params r.target).observations
        = s.observations ++ [⟨r.params, r.target⟩] :=
      register_append s r.params r.target fun o ho =>
        hfresh o ho r (List.mem_cons_self r rest)
    have hhead := (List.pairwise_cons.1 hd).1
    have hd2 := (List.pairwise_cons.1 hd).2
    have hfresh2 : ∀ o ∈ (s.register r.params r.target).observations,
        ∀ r2 ∈ rest, isDuplicate o.point r2.params = false := by
      intro o ho r2 hr2
      rw [hreg] at ho
      rcases List.mem_append.1 ho with ho | ho
      · exact hfresh o ho r2 (List.mem_cons_of_mem r hr2)
      · rw [List.mem_singleton.1 ho]
        exact hhead r2 hr2
    have hstep : loadLogs s (r :: rest) = loadLogs (s.register r.params r.target) rest := rfl
    rw [hstep, ih _ hfresh2 hd2, hreg]
    simp

/-- C8: loading a persisted log of 5 pairwise-distinct records into a
fresh space registers exactly 5 observations, each holding the target
value recorded in the file. -/
theorem claim_C8_load_logs (s : ParameterSpace) (logs : List LogRecord)
    (he : s.observations = [])
    (hd : logs.Pairwise fun a b => isDuplicate a.params b.params = false)
    (h5 : logs.length = 5) :
    (loadLogs s logs).observations = (logs.map fun r => ⟨r.params, r.target⟩) ∧
    (loadLogs s logs).observations.length = 5 := by
  have h := loadLogs_fresh logs s (fun o ho => absurd (he ▸ ho) (List.not_mem_nil o)) hd
  rw [he] at h
  simp only [List.nil_append] at h
  exact ⟨h, by rw [h, List.length_map, h5]⟩

/-- Witness for C8 at a concrete input: a fresh one-parameter space and a
log of 5 records with pairwise-distinct parameter values. -/
theorem claim_C8_load_logs_witness :
    (ParameterSpace.mk ["x"] [(0, 10)] [] : ParameterSpace).observations = [] ∧
    ([⟨10, [0]⟩, ⟨11, [1]⟩, ⟨12, [2]⟩, ⟨13, [3]⟩, ⟨14, [4]⟩] : List LogRecord).Pairwise
      (fun a b => isDuplicate a.params b.params = false) ∧
    (loadLogs (ParameterSpace.mk ["x"] [(0, 10)] [])
        [⟨10, [0]⟩, ⟨11, [1]⟩, ⟨12, [2]⟩, ⟨13, [3]⟩, ⟨14, [4]⟩]).observations.length = 5 :=
  ⟨rfl, by norm_num [List.pairwise_cons, isDuplicate_single, tol, abs_le],
    (claim_C8_load_logs (ParameterSpace.mk ["x"] [(0, 10)] [])
      [⟨10, [0]⟩, ⟨11, [1]⟩, ⟨12, [2]⟩, ⟨13, [3]⟩, ⟨14, [4]⟩] rfl
      (by norm_num [List.pairwise_cons, isDuplicate_single, tol, abs_le]) rfl).2⟩

/-- Witness for C4 at a concrete input: a history with a unique earliest
maximum among tied targets; the accessor picks the earlier of the two
observations with target 2. -/
theorem claim_C4_best_observation_witness :
    ∃ l1 l2,
      (ParameterSpace.mk ["x"] [(0, 10)]
          [⟨[0], 1⟩, ⟨[1], 2⟩, ⟨[2], 2⟩]).observations
        = l1 ++ (⟨[1], 2⟩ : Observation) :: l2 ∧
      (∀ x ∈ l1, x.target < (Observation.mk [1] 2).target) ∧
      ∀ x ∈ (ParameterSpace.mk ["x"] [(0, 10)]
          [⟨[0], 1⟩, ⟨[1], 2⟩, ⟨[2], 2⟩]).observations,
        x.target ≤ (Observation.mk [1] 2).target :=
  (claim_C4_best_observation
    (ParameterSpace.mk ["x"] [(0, 10)] [⟨[0], 1⟩, ⟨[1], 2⟩, ⟨[2], 2⟩])).2
    ⟨[1], 2⟩ (by decide)

lemma foldl_probeNow_queue (l : List Point) (o : Optimizer) :
    (l.foldl (fun (acc : Optimizer) p => acc.probeNow p) o).queue = o.queue := by
  induction l generalizing o with
  | nil => rfl
  | cons p rest ih => exact ih (o.probeNow p)

lemma drainQueue_queue (o : Optimizer) : (drainQueue o).1.queue = [] := by
  show (o.queue.foldl (fun (acc : Optimizer) p => acc.probeNow p)
    { o with queue := [] }).queue = []
  rw [foldl_probeNow_queue]

lemma runInit_spec (n : Nat) (o : Optimizer) :
    (runInit o n).2.length = n ∧ (∀ e ∈ (runInit o n).2, e.1 = EvalKind.init) ∧
    (runInit o n).1.queue = o.queue := by
  induction n generalizing o with
  | zero => exact ⟨rfl, fun e he => absurd he (List.not_mem_nil e), rfl⟩
  | succ n ih =>
    obtain ⟨hl, hk, hq⟩ := ih (Optimizer.probeNow
      { o with rng := (o.space.randomSample o.rng).2 } (o.space.randomSample o.rng).1)
    have hcons2 : (runInit o (n + 1)).2
        = (EvalKind.init, (o.space.randomSample o.rng).1) :: (runInit (Optimizer.probeNow
            { o with rng := (o.space.randomSample o.rng).2 }
            (o.space.randomSample o.rng).1) n).2 := rfl
    refine ⟨by rw [hcons2]; simp [hl], ?_, ?_⟩
    · intro e he
      rw [hcons2] at he
      rcases List.mem_cons.1 he with rfl | he
      · rfl
      · exact hk e he
    · exact hq

lemma runIters_trace_succ (o : Optimizer) (n : Nat) :
    ∃ o2 p, (runIters o (n + 1)).2
        = (o.queue.map fun q => (EvalKind.lazy, q)) ++
          (EvalKind.suggestion, p) :: (runIters o2 n).2 ∧ o2.queue = [] := by
  refine ⟨Optimizer.probeNow
      { (drainQueue o).1 with
        rng := ((drainQueue o).1.space.randomSample (drainQueue o).1.rng).2 }
      (suggest (drainQueue o).1.space.bounds (fun _ => 0)
        ((drainQueue o).1.space.randomSample (drainQueue o).1.rng).1 []),
    suggest (drainQueue o).1.space.bounds (fun _ => 0)
      ((drainQueue o).1.space.randomSample (drainQueue o).1.rng).1 [], rfl, ?_⟩
  show (drainQueue o).1.queue = []
  exact drainQueue_queue o

lemma runIters_empty_queue (n : Nat) (o : Optimizer) (hq : o.queue = []) :
    (runIters o n).2.length = n ∧ ∀ e ∈ (runIters o n).2, e.1 = EvalKind.suggestion := by
  induction n generalizing o with
  | zero => exact ⟨rfl, fun e he => absurd he (List.not_mem_nil e)⟩
  | succ n ih =>
    obtain ⟨o2, p, htr, hq2⟩ := runIters_trace_succ o n
    rw [hq] at htr
    simp only [List.map_nil, List.nil_append] at htr
    obtain ⟨hl, hk⟩ := ih o2 hq2
    refine ⟨by rw [htr]; simp [hl], ?_⟩
    intro e he
    rw [htr] at he
    rcases List.mem_cons.1 he with rfl | he
    · rfl
    · exact hk e he

lemma runIters_trace (o : Optimizer) (n : Nat) (h : 1 ≤ n) :
    ∃ trS, (runIters o n).2 = (o.queue.map fun q => (EvalKind.lazy, q)) ++ trS ∧
      trS.length = n ∧ ∀ e ∈ trS, e.1 = EvalKind.suggestion := by
  obtain ⟨m, rfl⟩ : ∃ m, n = m + 1 := ⟨n - 1, (Nat.succ_pred_eq_of_pos h).symm⟩
  obtain ⟨o2, p, htr, hq2⟩ := runIters_trace_succ o m
  obtain ⟨hl, hk⟩ := runIters_empty_queue m o2 hq2
  refine ⟨(EvalKind.suggestion, p) :: (runIters o2 m).2, htr, by simp [hl], ?_⟩
  intro e he
  rcases List.mem_cons.1 he with rfl | he
  · rfl
  · exact hk e he

/-- C2 (amended): in a maximize call that runs at least one main-loop
iteration, the init_points random samples are evaluated first, then all
queued lazy-probe points in FIFO order, then the acquisition-suggested
points; every queued point is evaluated strictly before every suggested
point.  (With n_iter = 0 the queue is not drained at all, see the
counterexample.) -/
theorem claim_C2_maximize_trace_order (o : Optimizer) (ip ni : Nat) (h : 1 ≤ ni) :
    ∃ trI trS,
      (o.maximize ip ni).2 = trI ++ (o.queue.map fun q => (EvalKind.lazy, q)) ++ trS ∧
      trI.length = ip ∧ (∀ e ∈ trI, e.1 = EvalKind.init) ∧
      trS.length = ni ∧ ∀ e ∈ trS, e.1 = EvalKind.suggestion := by
  obtain ⟨hlI, hkI, hqI⟩ := runInit_spec ip o
  obtain ⟨trS, htr, hlS, hkS⟩ := runIters_trace (runInit o ip).1 ni h
  rw [hqI] at htr
  refine ⟨(runInit o ip).2, trS, ?_, hlI, hkI, hlS, hkS⟩
  have hm : (o.maximize ip ni).2
      = (runInit o ip).2 ++ (runIters (runInit o ip).1 ni).2 := rfl
  rw [hm, htr]
  simp [List.append_assoc]

/-- Counterexample to C2 as stated: with a nonempty lazy queue and
n_iter = 0, the single call maximize(1, 0) evaluates its one random init
point but never drains the queued lazy point, so the queued point is not
evaluated during the call at all. -/
theorem claim_C2_maximize_trace_order_cex :
    (Optimizer.mk (ParameterSpace.create [("x", (0, 1))]) [[5]] ⟨1⟩ fun _ => 0).queue ≠ [] ∧
    ∀ e ∈ ((Optimizer.mk (ParameterSpace.create [("x", (0, 1))]) [[5]] ⟨1⟩
        fun _ => 0).maximize 1 0).2, e.1 ≠ EvalKind.lazy := by
  constructor
  · simp
  · decide

/-- Witness for C2 (amended) at a concrete input: one init point, one
queued lazy point, one iteration. -/
theorem claim_C2_maximize_trace_order_witness :
    ∃ trI trS,
      ((Optimizer.mk (ParameterSpace.mk ["x"] [(0, 1)] []) [[5]] ⟨1⟩
          fun _ => 0).maximize 1 1).2
        = trI ++ (([[5]] : List Point).map fun q => (EvalKind.lazy, q)) ++ trS ∧
      trI.length = 1 ∧ (∀ e ∈ trI, e.1 = EvalKind.init) ∧
      trS.length = 1 ∧ ∀ e ∈ trS, e.1 = EvalKind.suggestion :=
  claim_C2_maximize_trace_order
    (Optimizer.mk (ParameterSpace.mk ["x"] [(0, 1)] []) [[5]] ⟨1⟩ fun _ => 0) 1 1
    (by decide)

/-- C9 (amended): a maximize(init_points, n_iter) call on a queue holding
k points performs exactly k + init_points + n_iter evaluations provided
at least one main-loop iteration runs (or the queue is empty); with
n_iter = 0 and a nonempty queue the queued points are not evaluated, see
the counterexample. -/
theorem claim_C9_maximize_eval_count (o : Optimizer) (ip ni : Nat)
    (h : 1 ≤ ni ∨ o.queue = []) :
    (o.maximize ip ni).2.length = ip + o.queue.length + ni := by
  obtain ⟨hlI, hkI, hqI⟩ := runInit_spec ip o
  have hm : (o.maximize ip ni).2
      = (runInit o ip).2 ++ (runIters (runInit o ip).1 ni).2 := rfl
  rcases h with h | h
  · obtain ⟨trS, htr, hlS, hkS⟩ := runIters_trace (runInit o ip).1 ni h
    rw [hqI] at htr
    rw [hm, htr]
    simp only [List.length_append, List.length_map, hlI, hlS]
    omega
  · obtain ⟨hl, hk⟩ := runIters_empty_queue ni (runInit o ip).1 (by rw [hqI, h])
    rw [hm]
    simp only [List.length_append, hlI, hl, h, List.length_nil]
    omega

/-- Counterexample to C9 as stated: with one queued lazy point,
maximize(0, 0) performs 0 evaluations, not k + init_points + n_iter = 1. -/
theorem claim_C9_maximize_eval_count_cex :
    ¬ (((Optimizer.mk (ParameterSpace.create [("x", (0, 1))]) [[7]] ⟨2⟩
        fun _ => 0).maximize 0 0).2.length
      = 0 + (Optimizer.mk (ParameterSpace.create [("x", (0, 1))]) [[7]] ⟨2⟩
        fun _ => 0).queue.length + 0) := by
  decide

/-- Witness for C9 (amended) at a concrete input: two init points, one
queued lazy point, one iteration - four evaluations. -/
theorem claim_C9_maximize_eval_count_witness :
    ((Optimizer.mk (ParameterSpace.mk ["x"] [(0, 1)] []) [[5]] ⟨1⟩
        fun _ => 0).maximize 2 1).2.length
      = 2 + ([[5]] : List Point).length + 1 :=
  claim_C9_maximize_eval_count
    (Optimizer.mk (ParameterSpace.mk ["x"] [(0, 1)] []) [[5]] ⟨1⟩ fun _ => 0) 2 1
    (Or.inl (by decide))

end BayesOpt